import Mathlib

/-!
# IAMPolicySearch: the discovery-and-evaluation pipeline of `searchResource`

A shallow embedding of `src/main.go`.

* The IAM client is a parameter.  Every remote operation is a function from a
  service state and a request to a result and the next service state, so a
  stage is specified for every deterministic, possibly stateful, service.
* A Go call result `(out, err)` is a `CallResult`: `err` when `err != nil`.
* A `*string` that the program copies or tests as a pointer is an
  `Option String`.  The name and id of an attached group, role or user, which
  the program only ever dereferences for printing, are `String`s.
* A `for` loop that pages through a listing has no bound in the source; its
  embedding takes `fuel`, the number of listing calls it may make, and reports
  `Outcome.outOfFuel` when that is used up.
* A goroutine that feeds a channel is embedded as the function computing the
  sequence of values it sends, in order, to a receiver that takes them all; a
  goroutine ranging over a channel takes the received sequence as a list.
  A `range` variable is a fresh variable in every iteration, so `&p` names the
  element that was sent.
* Standard output is the list of chunks written, one per `fmt` call.
-/

namespace IAMPolicySearch

/-! ## Results of remote calls and of stages -/

/-- Result of a remote call: `ok out` when `err == nil`, `err msg` with
`msg = err.Error()` otherwise. -/
inductive CallResult (α : Type) where
  | ok (out : α)
  | err (msg : String)
deriving DecidableEq

/-- Run-time panics the program can raise. -/
inductive Panic where
  | nilDereference
  | indexOutOfRange
  | sendOnClosedChannel
deriving DecidableEq

/-- How a loop or goroutine ended. -/
inductive Outcome where
  | done
  | panicked (p : Panic)
  | outOfFuel
deriving DecidableEq

/-- What a producing goroutine did: the values sent on its channel, the chunks
written to standard output, how it ended, and the service state it left. -/
structure StageResult (α σ : Type) where
  emitted : List α
  stdout : List String
  outcome : Outcome
  state : σ
deriving DecidableEq

/-- Values sent and chunks written before the rest of a run. -/
def StageResult.after {α σ : Type} (sent : List α) (printed : List String)
    (r : StageResult α σ) : StageResult α σ :=
  ⟨sent ++ r.emitted, printed ++ r.stdout, r.outcome, r.state⟩

/-! ## SDK types (the fields the program uses) -/

/-- Managed policy, `types.Policy`. -/
structure Policy where
  Arn : Option String
  PolicyName : Option String
  Path : Option String
deriving DecidableEq

/-- Version of a managed policy, `types.PolicyVersion`. -/
structure PolicyVersion where
  VersionId : Option String
  IsDefaultVersion : Bool
  Document : Option String
deriving DecidableEq

/-- Account user, `types.User`. -/
structure User where
  UserName : Option String
  UserId : Option String
deriving DecidableEq

/-- Scope of a policy listing, `types.PolicyScopeType`. -/
inductive PolicyScopeType where
  | All
  | AWS
  | Local
deriving DecidableEq

structure ListPoliciesInput where
  Scope : PolicyScopeType
  Marker : Option String
deriving DecidableEq

structure ListPoliciesOutput where
  Policies : List Policy
  IsTruncated : Bool
  Marker : Option String
deriving DecidableEq

structure ListPolicyVersionsInput where
  PolicyArn : Option String
  Marker : Option String
deriving DecidableEq

structure ListPolicyVersionsOutput where
  Versions : List PolicyVersion
  IsTruncated : Bool
  Marker : Option String
deriving DecidableEq

structure GetPolicyVersionInput where
  PolicyArn : Option String
  VersionId : Option String
deriving DecidableEq

structure GetPolicyVersionOutput where
  PolicyVersion : Option PolicyVersion
deriving DecidableEq

structure ListUsersInput where
  Marker : Option String
deriving DecidableEq

structure ListUsersOutput where
  Users : List User
  IsTruncated : Bool
  Marker : Option String
deriving DecidableEq

structure ListUserPoliciesInput where
  UserName : Option String
  Marker : Option String
deriving DecidableEq

structure ListUserPoliciesOutput where
  PolicyNames : List String
  IsTruncated : Bool
  Marker : Option String
deriving DecidableEq

structure GetUserPolicyInput where
  PolicyName : Option String
  UserName : Option String
deriving DecidableEq

structure GetUserPolicyOutput where
  PolicyDocument : Option String
  PolicyName : Option String
  UserName : Option String
deriving DecidableEq

/-- Decision of a simulation, `types.PolicyEvaluationDecisionType`. -/
inductive PolicyEvaluationDecisionType where
  | Allowed
  | ExplicitDeny
  | ImplicitDeny
deriving DecidableEq

/-- One simulation result, `types.EvaluationResult`. -/
structure EvaluationResult where
  EvalDecision : PolicyEvaluationDecisionType
deriving DecidableEq

structure SimulateCustomPolicyInput where
  ActionNames : List String
  ResourceArns : List String
  PolicyInputList : List String
deriving DecidableEq

structure SimulateCustomPolicyOutput where
  EvaluationResults : List EvaluationResult
deriving DecidableEq

/-- Group a policy is attached to, `types.PolicyGroup`. -/
structure PolicyGroup where
  GroupName : String
  GroupId : String
deriving DecidableEq

/-- Role a policy is attached to, `types.PolicyRole`. -/
structure PolicyRole where
  RoleName : String
  RoleId : String
deriving DecidableEq

/-- User a policy is attached to, `types.PolicyUser`. -/
structure PolicyUser where
  UserName : String
  UserId : String
deriving DecidableEq

structure ListEntitiesForPolicyInput where
  PolicyArn : Option String
  Marker : Option String
deriving DecidableEq

structure ListEntitiesForPolicyOutput where
  PolicyGroups : List PolicyGroup
  PolicyRoles : List PolicyRole
  PolicyUsers : List PolicyUser
  IsTruncated : Bool
  Marker : Option String
deriving DecidableEq

/-- The operations of `*iam.Client` that `searchResource` calls, over a
service state `σ`. -/
structure Client (σ : Type) where
  ListPolicies : σ → ListPoliciesInput → CallResult ListPoliciesOutput × σ
  ListPolicyVersions :
    σ → ListPolicyVersionsInput → CallResult ListPolicyVersionsOutput × σ
  GetPolicyVersion :
    σ → GetPolicyVersionInput → CallResult GetPolicyVersionOutput × σ
  ListUsers : σ → ListUsersInput → CallResult ListUsersOutput × σ
  ListUserPolicies :
    σ → ListUserPoliciesInput → CallResult ListUserPoliciesOutput × σ
  GetUserPolicy : σ → GetUserPolicyInput → CallResult GetUserPolicyOutput × σ
  SimulateCustomPolicy :
    σ → SimulateCustomPolicyInput → CallResult SimulateCustomPolicyOutput × σ
  ListEntitiesForPolicy :
    σ → ListEntitiesForPolicyInput → CallResult ListEntitiesForPolicyOutput × σ

/-! ## Program types -/

/-- The normalised evaluation unit, `PolicyInfo` (lines 15-22). -/
structure PolicyInfo where
  PolicyArn : Option String
  PolicyName : Option String
  Path : Option String
  VersionId : Option String
  UserName : Option String
  Document : Option String
deriving DecidableEq

/-- Element type of the channel `policyVersions` (lines 73-76). -/
structure PolicyVersionPair where
  Policy : Policy
  Version : PolicyVersion
deriving DecidableEq

/-- Element type of the channel `userPolicies` (lines 159-162). -/
structure UserPolicyPair where
  UserName : Option String
  UserPolicyName : Option String
deriving DecidableEq

/-! ## Policy Enumerator and User Enumerator -/

/-- The loop of the goroutine feeding `policies` (lines 51-70), entered with
the current `marker`. -/
def policiesLoop {σ : Type} (iamClient : Client σ) :
    Nat → σ → Option String → StageResult Policy σ
  | 0, s, _ => ⟨[], [], .outOfFuel, s⟩
  | fuel + 1, s, marker =>
    match iamClient.ListPolicies s { Scope := .Local, Marker := marker } with
    | (.err err, s') => ⟨[], ["error listing policies: " ++ err], .done, s'⟩
    | (.ok policyList, s') =>
      if policyList.IsTruncated then
        (policiesLoop iamClient fuel s' policyList.Marker).after
          policyList.Policies []
      else
        ⟨policyList.Policies, [], .done, s'⟩

/-- The goroutine feeding `policies` (lines 48-71): `marker` starts as nil. -/
def policies {σ : Type} (iamClient : Client σ) (fuel : Nat) (s : σ) :
    StageResult Policy σ :=
  policiesLoop iamClient fuel s none

/-- The loop of the goroutine feeding `users` (lines 140-156). -/
def usersLoop {σ : Type} (iamClient : Client σ) :
    Nat → σ → Option String → StageResult User σ
  | 0, s, _ => ⟨[], [], .outOfFuel, s⟩
  | fuel + 1, s, marker =>
    match iamClient.ListUsers s { Marker := marker } with
    | (.err err, s') =>
      ⟨[], ["error listing users: " ++ err ++ "\n"], .done, s'⟩
    | (.ok out, s') =>
      if out.IsTruncated then
        (usersLoop iamClient fuel s' out.Marker).after out.Users []
      else
        ⟨out.Users, [], .done, s'⟩

/-- The goroutine feeding `users` (lines 137-157). -/
def users {σ : Type} (iamClient : Client σ) (fuel : Nat) (s : σ) :
    StageResult User σ :=
  usersLoop iamClient fuel s none

/-! ## Policy Version Resolver and User Inline Policy Resolver -/

/-- The inner loop of the goroutine feeding `policyVersions` (lines 81-105),
for the received `policy` and the current `marker`. -/
def policyVersionsLoop {σ : Type} (iamClient : Client σ) (policy : Policy) :
    Nat → σ → Option String → StageResult PolicyVersionPair σ
  | 0, s, _ => ⟨[], [], .outOfFuel, s⟩
  | fuel + 1, s, marker =>
    match iamClient.ListPolicyVersions s
        { PolicyArn := policy.Arn, Marker := marker } with
    | (.err err, s') =>
      ⟨[], ["error listing policy versions: " ++ err], .done, s'⟩
    | (.ok out, s') =>
      if out.IsTruncated then
        (policyVersionsLoop iamClient policy fuel s' out.Marker).after
          (out.Versions.map fun version =>
            { Policy := policy, Version := version }) []
      else
        ⟨out.Versions.map fun version =>
          { Policy := policy, Version := version }, [], .done, s'⟩

/-- The goroutine feeding `policyVersions` (lines 77-107), given the sequence
received from `policies`.  Every inner loop may make `fuel` calls. -/
def policyVersions {σ : Type} (iamClient : Client σ) (fuel : Nat) :
    σ → List Policy → StageResult PolicyVersionPair σ
  | s, [] => ⟨[], [], .done, s⟩
  | s, policy :: rest =>
    let r := policyVersionsLoop iamClient policy fuel s none
    match r.outcome with
    | .done => (policyVersions iamClient fuel r.state rest).after r.emitted r.stdout
    | _ => r

/-- The inner loop of the goroutine feeding `userPolicies` (lines 167-190). -/
def userPoliciesLoop {σ : Type} (iamClient : Client σ) (user : User) :
    Nat → σ → Option String → StageResult UserPolicyPair σ
  | 0, s, _ => ⟨[], [], .outOfFuel, s⟩
  | fuel + 1, s, marker =>
    match iamClient.ListUserPolicies s
        { UserName := user.UserName, Marker := marker } with
    | (.err err, s') =>
      ⟨[], ["error listing user policies: " ++ err], .done, s'⟩
    | (.ok out, s') =>
      if out.IsTruncated then
        (userPoliciesLoop iamClient user fuel s' out.Marker).after
          (out.PolicyNames.map fun it =>
            { UserName := user.UserName, UserPolicyName := some it }) []
      else
        ⟨out.PolicyNames.map fun it =>
          { UserName := user.UserName, UserPolicyName := some it }, [], .done, s'⟩

/-- The goroutine feeding `userPolicies` (lines 163-192), given the sequence
received from `users`. -/
def userPolicies {σ : Type} (iamClient : Client σ) (fuel : Nat) :
    σ → List User → StageResult UserPolicyPair σ
  | s, [] => ⟨[], [], .done, s⟩
  | s, user :: rest =>
    let r := userPoliciesLoop iamClient user fuel s none
    match r.outcome with
    | .done => (userPolicies iamClient fuel r.state rest).after r.emitted r.stdout
    | _ => r

/-! ## Policy Document Fetcher and User Policy Document Fetcher

`QueryUnescape` is `url.QueryUnescape` of the Go standard library: a
parameter. -/

/-- The goroutine sending the managed policy documents on `policyDocuments`
(lines 110-134), given the sequence received from `policyVersions`. -/
def policyDocuments {σ : Type} (iamClient : Client σ)
    (QueryUnescape : String → CallResult String) :
    σ → List PolicyVersionPair → StageResult PolicyInfo σ
  | s, [] => ⟨[], [], .done, s⟩
  | s, policyVersion :: rest =>
    match iamClient.GetPolicyVersion s
        { PolicyArn := policyVersion.Policy.Arn,
          VersionId := policyVersion.Version.VersionId } with
    | (.err err, s') =>
      ⟨[], ["error getting policy version: " ++ err], .done, s'⟩
    | (.ok out, s') =>
      match out.PolicyVersion with
      | none => ⟨[], [], .panicked .nilDereference, s'⟩
      | some outPolicyVersion =>
        match outPolicyVersion.Document with
        | none => ⟨[], [], .panicked .nilDereference, s'⟩
        | some encoded =>
          match QueryUnescape encoded with
          | .err err =>
            match policyVersion.Policy.Arn, policyVersion.Version.VersionId with
            | some arn, some versionId =>
              ⟨[], [arn ++ " " ++ versionId
                ++ " error=unable to decode policy document " ++ err], .done, s'⟩
            | _, _ => ⟨[], [], .panicked .nilDereference, s'⟩
          | .ok doc =>
            (policyDocuments iamClient QueryUnescape s' rest).after
              [{ PolicyArn := policyVersion.Policy.Arn,
                 PolicyName := policyVersion.Policy.PolicyName,
                 Path := policyVersion.Policy.Path,
                 VersionId := outPolicyVersion.VersionId,
                 UserName := none,
                 Document := some doc }] []

/-- The goroutine sending the inline policy documents on `policyDocuments`
(lines 194-215), given the sequence received from `userPolicies`. -/
def userPolicyDocuments {σ : Type} (iamClient : Client σ)
    (QueryUnescape : String → CallResult String) :
    σ → List UserPolicyPair → StageResult PolicyInfo σ
  | s, [] => ⟨[], [], .done, s⟩
  | s, userPolicy :: rest =>
    match iamClient.GetUserPolicy s
        { PolicyName := userPolicy.UserPolicyName,
          UserName := userPolicy.UserName } with
    | (.err err, s') =>
      ⟨[], ["error getting user policy: " ++ err ++ "\n"], .done, s'⟩
    | (.ok out, s') =>
      match out.PolicyDocument with
      | none => ⟨[], [], .panicked .nilDereference, s'⟩
      | some encoded =>
        match QueryUnescape encoded with
        | .err err =>
          match userPolicy.UserName, userPolicy.UserPolicyName with
          | some userName, some userPolicyName =>
            ⟨[], [userName ++ " " ++ userPolicyName
              ++ " error=unable to decode user policy document " ++ err],
              .done, s'⟩
          | _, _ => ⟨[], [], .panicked .nilDereference, s'⟩
        | .ok doc =>
          (userPolicyDocuments iamClient QueryUnescape s' rest).after
            [{ PolicyArn := none,
               PolicyName := out.PolicyName,
               Path := none,
               VersionId := none,
               UserName := out.UserName,
               Document := some doc }] []

/-! ## Evaluator/Reporter -/

/-- What the evaluator did: the chunks written to standard output, how it
ended, and the service state it left. -/
structure SinkResult (σ : Type) where
  stdout : List String
  outcome : Outcome
  state : σ
deriving DecidableEq

/-- Chunks written before the rest of a run. -/
def SinkResult.after {σ : Type} (printed : List String) (r : SinkResult σ) :
    SinkResult σ :=
  ⟨printed ++ r.stdout, r.outcome, r.state⟩

/-- The chunk written by `if err != nil { fmt.Printf(" error=%s", ...) }`. -/
def errorSuffix : Option String → List String
  | none => []
  | some err => [" error=" ++ err]

/-- The attachment loop of the evaluator (lines 245-268) for the policy with
ARN `policyArn`, entered with the current `marker`. -/
def listEntities {σ : Type} (iamClient : Client σ) (policyArn : String) :
    Nat → σ → Option String → SinkResult σ
  | 0, s, _ => ⟨[], .outOfFuel, s⟩
  | fuel + 1, s, marker =>
    match iamClient.ListEntitiesForPolicy s
        { PolicyArn := some policyArn, Marker := marker } with
    | (.err err, s') =>
      ⟨["error trying to list entities for policy " ++ policyArn ++ ": " ++ err],
        .done, s'⟩
    | (.ok out2, s') =>
      let printed :=
        (out2.PolicyGroups.map fun group =>
          "\tis attached to group: Name=" ++ group.GroupName
            ++ " Id=" ++ group.GroupId ++ "\n")
        ++ (out2.PolicyRoles.map fun role =>
          "\tis attached to role: Name=" ++ role.RoleName
            ++ " Id=" ++ role.RoleId ++ "\n")
        ++ (out2.PolicyUsers.map fun user =>
          "\tis attached to user: Name=" ++ user.UserName
            ++ " Id=" ++ user.UserId ++ "\n")
      if out2.IsTruncated then
        (listEntities iamClient policyArn fuel s' out2.Marker).after printed
      else
        ⟨printed, .done, s'⟩

/-- The branch `// user inline policy` of the evaluator (lines 230-235);
`err` is the error of the simulation call, if it failed. -/
def reportInline {σ : Type} (s : σ) (policyDocument : PolicyInfo)
    (err : Option String) : SinkResult σ :=
  match policyDocument.UserName, policyDocument.PolicyName with
  | some userName, some policyName =>
    ⟨["(user inline policy) UserName=" ++ userName
        ++ " PolicyName=" ++ policyName] ++ errorSuffix err ++ ["\n"],
      .done, s⟩
  | _, _ => ⟨[], .panicked .nilDereference, s⟩

/-- The branch `// managed policy` of the evaluator (lines 237-268), where
`policyDocument.PolicyArn` points to `policyArn`. -/
def reportManaged {σ : Type} (iamClient : Client σ) (fuel : Nat) (s : σ)
    (policyArn : String) (policyDocument : PolicyInfo) (err : Option String) :
    SinkResult σ :=
  match policyDocument.VersionId with
  | none => ⟨[], .panicked .nilDereference, s⟩
  | some versionId =>
    (listEntities iamClient policyArn fuel s none).after
      (["Arn=" ++ policyArn ++ " VersionId=" ++ versionId]
        ++ errorSuffix err ++ ["\n"])

/-- The reporting part of the evaluator's loop body (lines 229-269): the test
`policyDocument.PolicyArn == nil` selects the branch. -/
def report {σ : Type} (iamClient : Client σ) (fuel : Nat) (s : σ)
    (policyDocument : PolicyInfo) (err : Option String) : SinkResult σ :=
  match policyDocument.PolicyArn with
  | none => reportInline s policyDocument err
  | some policyArn => reportManaged iamClient fuel s policyArn policyDocument err

/-- One iteration of the evaluator's loop (lines 219-270) for the received
`policyDocument`. -/
def evaluateItem {σ : Type} (iamClient : Client σ) (action resource : String)
    (fuel : Nat) (s : σ) (policyDocument : PolicyInfo) : SinkResult σ :=
  match policyDocument.Document with
  | none => ⟨[], .panicked .nilDereference, s⟩
  | some document =>
    match iamClient.SimulateCustomPolicy s
        { ActionNames := [action], ResourceArns := [resource],
          PolicyInputList := [document] } with
    | (.err err, s') => report iamClient fuel s' policyDocument (some err)
    | (.ok out, s') =>
      match out.EvaluationResults[0]? with
      | none => ⟨[], .panicked .indexOutOfRange, s'⟩
      | some first =>
        if first.EvalDecision ≠ .Allowed then ⟨[], .done, s'⟩
        else report iamClient fuel s' policyDocument none

/-- The evaluator's loop (lines 218-271), given the sequence received from
`policyDocuments`. -/
def evaluate {σ : Type} (iamClient : Client σ) (action resource : String)
    (fuel : Nat) : σ → List PolicyInfo → SinkResult σ
  | s, [] => ⟨[], .done, s⟩
  | s, policyDocument :: rest =>
    let r := evaluateItem iamClient action resource fuel s policyDocument
    match r.outcome with
    | .done => (evaluate iamClient action resource fuel r.state rest).after r.stdout
    | _ => r

/-- The sink of `searchResource` (lines 217-271): the heading, then the
loop. -/
def evaluator {σ : Type} (iamClient : Client σ) (action resource : String)
    (fuel : Nat) (s : σ) (received : List PolicyInfo) : SinkResult σ :=
  (evaluate iamClient action resource fuel s received).after
    ["The action " ++ action ++ " on the resource " ++ resource
      ++ " is allowed by the following policies:\n"]

/-! ## The merged channel `policyDocuments`

The two document fetchers send on the one unbuffered channel
`policyDocuments` and the loop at line 218 ranges over it.  The goroutine of
lines 110-134 closes the channel when it returns (`defer close`, line 111);
the goroutine of lines 194-215 has no `close` and nothing waits for it. -/

/-- State of the fan-in: what each fetcher has still to send, whether its
goroutine has returned, whether `policyDocuments` is closed, what the loop at
line 218 has received, whether that loop has ended, and whether a goroutine
has panicked. -/
structure FanIn where
  managedPending : List PolicyInfo
  managedReturned : Bool
  userPending : List PolicyInfo
  userReturned : Bool
  closed : Bool
  received : List PolicyInfo
  loopEnded : Bool
  panicked : Option Panic
deriving DecidableEq

/-- Steps of the fan-in. -/
inductive FanInEvent where
  /-- The send at line 126 meets the receive at line 218. -/
  | managedSend
  /-- The loop of lines 112-133 is over; the deferred `close` runs. -/
  | managedReturn
  /-- The send at line 209: it meets the receive at line 218, or panics when
  the channel is closed. -/
  | userSend
  /-- The loop of lines 195-214 is over. -/
  | userReturn
  /-- The `range` at line 218 finds the channel closed. -/
  | loopEnd
deriving DecidableEq

/-- The fan-in before any step, given what the two fetchers send. -/
def FanIn.start (managed user : List PolicyInfo) : FanIn :=
  ⟨managed, false, user, false, false, [], false, none⟩

/-- One step of the fan-in, `none` when the step is not enabled. -/
def FanIn.step (c : FanIn) : FanInEvent → Option FanIn
  | .managedSend =>
    match c.managedPending with
    | info :: rest =>
      if c.managedReturned || c.loopEnded || c.panicked.isSome then none
      else some { c with managedPending := rest, received := c.received ++ [info] }
    | [] => none
  | .managedReturn =>
    match c.managedPending with
    | [] =>
      if c.managedReturned || c.panicked.isSome then none
      else some { c with managedReturned := true, closed := true }
    | _ :: _ => none
  | .userSend =>
    match c.userPending with
    | info :: rest =>
      if c.userReturned || c.panicked.isSome then none
      else if c.closed then some { c with panicked := some .sendOnClosedChannel }
      else if c.loopEnded then none
      else some { c with userPending := rest, received := c.received ++ [info] }
    | [] => none
  | .userReturn =>
    match c.userPending with
    | [] =>
      if c.userReturned || c.panicked.isSome then none
      else some { c with userReturned := true }
    | _ :: _ => none
  | .loopEnd =>
    if c.closed && !c.loopEnded && !c.panicked.isSome then
      some { c with loopEnded := true }
    else none

/-- The fan-in after a sequence of steps, `none` when one is not enabled. -/
def FanIn.run (c : FanIn) : List FanInEvent → Option FanIn
  | [] => some c
  | event :: events =>
    match c.step event with
    | some c' => c'.run events
    | none => none

/-! ## Marker-threaded pagination, in the words of the specification -/

/-- The relation `Pagination call truncated next s m pages failure s'` says
that the requests made from service state `s`, the first with marker `m` and
each later one with the marker the previous page returned, are answered by
`pages` in this order; every page but the last reports truncation; and the
sequence ends either with a page that reports no truncation
(`failure = none`) or with a call that fails with message `e` after the last
page (`failure = some e`).  The service is left in state `s'`. -/
inductive Pagination {σ π : Type} (call : σ → Option String → CallResult π × σ)
    (truncated : π → Bool) (next : π → Option String) :
    σ → Option String → List π → Option String → σ → Prop where
  | last {s s' : σ} {m : Option String} {p : π} :
      call s m = (.ok p, s') → truncated p = false →
      Pagination call truncated next s m [p] none s'
  | fail {s s' : σ} {m : Option String} {e : String} :
      call s m = (.err e, s') →
      Pagination call truncated next s m [] (some e) s'
  | more {s s' s'' : σ} {m : Option String} {p : π} {ps : List π}
      {failure : Option String} :
      call s m = (.ok p, s') → truncated p = true →
      Pagination call truncated next s' (next p) ps failure s'' →
      Pagination call truncated next s m (p :: ps) failure s''

/-- The relation `VersionListings iamClient s input listings s'` says that,
from service state `s` and for the policies of `input` in order, the
marker-threaded version-listing requests keyed by the policy's ARN, the first
without marker, are answered by the corresponding entry of `listings`: a
finite sequence of pages, no call failing.  The service is left in `s'`. -/
inductive VersionListings {σ : Type} (iamClient : Client σ) :
    σ → List Policy → List (List ListPolicyVersionsOutput) → σ → Prop where
  | nil {s : σ} : VersionListings iamClient s [] [] s
  | cons {s s' s'' : σ} {policy : Policy} {rest : List Policy}
      {pages : List ListPolicyVersionsOutput}
      {listings : List (List ListPolicyVersionsOutput)} :
      Pagination
        (fun t k => iamClient.ListPolicyVersions t
          { PolicyArn := policy.Arn, Marker := k })
        (fun p => p.IsTruncated) (fun p => p.Marker) s none pages none s' →
      VersionListings iamClient s' rest listings s'' →
      VersionListings iamClient s (policy :: rest) (pages :: listings) s''

/-- The pairs of `policy` with every version of `pages`, in page order. -/
def versionPairs (policy : Policy) (pages : List ListPolicyVersionsOutput) :
    List PolicyVersionPair :=
  pages.flatMap fun page =>
    page.Versions.map fun version => { Policy := policy, Version := version }

/-- Fetching and percent-decoding the document of one pair in the words of
the specification: the managed `PolicyInfo` for `pair` and the next service
state when the fetch by (ARN, version id) succeeds with a document and the
document decodes, `none` when the fetch or the decoding fails. -/
def fetchAndDecode {σ : Type} (iamClient : Client σ)
    (QueryUnescape : String → CallResult String) (s : σ)
    (pair : PolicyVersionPair) : Option (PolicyInfo × σ) :=
  match iamClient.GetPolicyVersion s
      { PolicyArn := pair.Policy.Arn, VersionId := pair.Version.VersionId } with
  | (.ok ⟨some ⟨versionId, _, some encoded⟩⟩, s') =>
    match QueryUnescape encoded with
    | .ok doc =>
      some ({ PolicyArn := pair.Policy.Arn, PolicyName := pair.Policy.PolicyName,
              Path := pair.Policy.Path, VersionId := versionId,
              UserName := none, Document := some doc }, s')
    | .err _ => none
  | _ => none

/-- The relation `Fetched iamClient QueryUnescape s pairs infos s'` says that,
from service state `s`, fetch and decoding succeed for every pair of `pairs`
in order, giving `infos`, and leave the service in `s'`. -/
inductive Fetched {σ : Type} (iamClient : Client σ)
    (QueryUnescape : String → CallResult String) :
    σ → List PolicyVersionPair → List PolicyInfo → σ → Prop where
  | nil {s : σ} : Fetched iamClient QueryUnescape s [] [] s
  | cons {s s' s'' : σ} {pair : PolicyVersionPair} {rest : List PolicyVersionPair}
      {info : PolicyInfo} {infos : List PolicyInfo} :
      fetchAndDecode iamClient QueryUnescape s pair = some (info, s') →
      Fetched iamClient QueryUnescape s' rest infos s'' →
      Fetched iamClient QueryUnescape s (pair :: rest) (info :: infos) s''

/-- The simulation call the evaluator makes for `item`, if `item` carries a
document. -/
def simulation {σ : Type} (iamClient : Client σ) (action resource : String)
    (s : σ) (item : PolicyInfo) :
    Option (CallResult SimulateCustomPolicyOutput × σ) :=
  item.Document.map fun document =>
    iamClient.SimulateCustomPolicy s
      { ActionNames := [action], ResourceArns := [resource],
        PolicyInputList := [document] }

/-- The error of the simulation call for `item`, when the call fails. -/
def simulationError {σ : Type} (iamClient : Client σ) (action resource : String)
    (s : σ) (item : PolicyInfo) : Option String :=
  match simulation iamClient action resource s item with
  | some (.err e, _) => some e
  | _ => none

/-- Attachment target of a managed policy: a group, a role or a user, each
with a name and an identifier. -/
inductive AttachmentTarget where
  | Group (name id : String)
  | Role (name id : String)
  | User (name id : String)
deriving DecidableEq

/-- The targets of one page of attached entities: its groups, then its roles,
then its users, each in the order of the page. -/
def attachmentTargets (page : ListEntitiesForPolicyOutput) : List AttachmentTarget :=
  (page.PolicyGroups.map fun g => .Group g.GroupName g.GroupId)
    ++ (page.PolicyRoles.map fun r => .Role r.RoleName r.RoleId)
    ++ (page.PolicyUsers.map fun u => .User u.UserName u.UserId)

/-- The sub-line reporting one attachment target. -/
def targetLine : AttachmentTarget → String
  | .Group name id => "\tis attached to group: Name=" ++ name ++ " Id=" ++ id ++ "\n"
  | .Role name id => "\tis attached to role: Name=" ++ name ++ " Id=" ++ id ++ "\n"
  | .User name id => "\tis attached to user: Name=" ++ name ++ " Id=" ++ id ++ "\n"

/-! ## Example services -/

/-- A service without state whose every operation fails. -/
def unavailable : Client Unit where
  ListPolicies := fun s _ => (.err "unavailable", s)
  ListPolicyVersions := fun s _ => (.err "unavailable", s)
  GetPolicyVersion := fun s _ => (.err "unavailable", s)
  ListUsers := fun s _ => (.err "unavailable", s)
  ListUserPolicies := fun s _ => (.err "unavailable", s)
  GetUserPolicy := fun s _ => (.err "unavailable", s)
  SimulateCustomPolicy := fun s _ => (.err "unavailable", s)
  ListEntitiesForPolicy := fun s _ => (.err "unavailable", s)

/-- Three example policies. -/
def policyA : Policy := ⟨some "arn:a", some "a", some "/"⟩

def policyB : Policy := ⟨some "arn:b", some "b", some "/"⟩

def policyC : Policy := ⟨some "arn:c", some "c", some "/"⟩

/-- Two example users. -/
def userA : User := ⟨some "alice", some "u1"⟩

def userB : User := ⟨some "bob", some "u2"⟩

/-- A service that lists policies and users in two pages: the request without
marker gets the first page and the marker `m1`, the request with marker `m1`
gets the second and last page, any other request fails. -/
def twoPageService : Client Unit :=
  { unavailable with
    ListPolicies := fun s input =>
      if input.Marker = none then
        (.ok ⟨[policyA, policyB], true, some "m1"⟩, s)
      else if input.Marker = some "m1" then
        (.ok ⟨[policyC], false, none⟩, s)
      else (.err "unknown marker", s)
    ListUsers := fun s input =>
      if input.Marker = none then
        (.ok ⟨[userA], true, some "m1"⟩, s)
      else if input.Marker = some "m1" then
        (.ok ⟨[userB], false, none⟩, s)
      else (.err "unknown marker", s) }

/-- Two example versions: the default one and an older one. -/
def version1 : PolicyVersion := ⟨some "v1", false, none⟩

def version2 : PolicyVersion := ⟨some "v2", true, none⟩

/-- A service whose version listing fails for the policy with ARN `arn:a`
and returns the single page `[version1, version2]` for every other policy. -/
def versionsFailForA : Client Unit :=
  { unavailable with
    ListPolicyVersions := fun s input =>
      if input.PolicyArn = some "arn:a" then (.err "denied", s)
      else (.ok ⟨[version1, version2], false, none⟩, s) }

/-- A service whose version listing, for the policy with ARN `arn:a`, returns
the page `[version1]` with the marker `m1` and then fails on the request
with that marker, and returns the single page `[version1, version2]` for
every other policy. -/
def versionsFailOnSecondPageOfA : Client Unit :=
  { unavailable with
    ListPolicyVersions := fun s input =>
      if input.PolicyArn = some "arn:a" then
        if input.Marker = none then (.ok ⟨[version1], true, some "m1"⟩, s)
        else (.err "denied", s)
      else (.ok ⟨[version1, version2], false, none⟩, s) }

/-- A service whose version listing has two pages for every policy: the
request without marker gets `[version1]` and the marker `m1`, the request
with marker `m1` gets `[version2]`. -/
def versionsInTwoPages : Client Unit :=
  { unavailable with
    ListPolicyVersions := fun s input =>
      if input.Marker = none then (.ok ⟨[version1], true, some "m1"⟩, s)
      else if input.Marker = some "m1" then (.ok ⟨[version2], false, none⟩, s)
      else (.err "unknown marker", s) }

/-- A stand-in for `url.QueryUnescape`: a text containing the ill-formed
escape `%zz` is rejected, any other text is returned as it is. -/
def exampleUnescape (encoded : String) : CallResult String :=
  if encoded = "%zz" then .err "invalid URL escape \"%zz\"" else .ok encoded

/-- A service that returns a document for every version of every policy and
for every inline policy, and rejects a `GetPolicyVersion` request that lacks
the required `PolicyArn`.  The document of version `v2` is ill-formed. -/
def documentService : Client Unit :=
  { unavailable with
    GetPolicyVersion := fun s input =>
      if input.PolicyArn = none then (.err "missing required field, PolicyArn", s)
      else if input.VersionId = some "v2" then
        (.ok ⟨some ⟨input.VersionId, true, some "%zz"⟩⟩, s)
      else (.ok ⟨some ⟨input.VersionId, false, some "doc"⟩⟩, s)
    GetUserPolicy := fun s input =>
      (.ok ⟨some "doc", input.PolicyName, input.UserName⟩, s) }

/-- An inline and a managed example document. -/
def inlineInfo : PolicyInfo := ⟨none, some "p", none, none, some "alice", some "doc"⟩

/-- A service that allows every document and lists the entities attached to a
policy in two pages: the request without marker gets a group and a user and
the marker `m1`, the request with marker `m1` gets a group, two roles and a
user. -/
def attachedInTwoPages : Client Unit :=
  { unavailable with
    SimulateCustomPolicy := fun s _ => (.ok ⟨[⟨.Allowed⟩]⟩, s)
    ListEntitiesForPolicy := fun s input =>
      if input.Marker = none then
        (.ok ⟨[⟨"g1", "G1"⟩], [], [⟨"u1", "U1"⟩], true, some "m1"⟩, s)
      else if input.Marker = some "m1" then
        (.ok ⟨[⟨"g2", "G2"⟩], [⟨"r1", "R1"⟩, ⟨"r2", "R2"⟩], [⟨"u2", "U2"⟩], false, none⟩, s)
      else (.err "unknown marker", s) }

/-- A service whose simulation succeeds with an empty list of results. -/
def noResults : Client Unit :=
  { unavailable with
    SimulateCustomPolicy := fun s _ => (.ok ⟨[]⟩, s) }

/-- A service whose simulation denies every document. -/
def denying : Client Unit :=
  { unavailable with
    SimulateCustomPolicy := fun s _ => (.ok ⟨[⟨.ImplicitDeny⟩]⟩, s) }

/-- More example documents: an inline one that is denied, one for which the
simulation returns no result, one for which the simulation call fails, an
allowed and a failing one that lack the user name, and a managed one for which
the simulation call fails. -/
def deniedInfo : PolicyInfo := ⟨none, some "q", none, none, some "bob", some "deny"⟩

def failingInline : PolicyInfo := ⟨none, some "s", none, none, some "dave", some "bad"⟩

def failingNameless : PolicyInfo := ⟨none, some "p", none, none, none, some "bad"⟩

def failingManaged : PolicyInfo :=
  ⟨some "arn:b", some "b", some "/", some "v2", none, some "bad"⟩

/-- A service whose simulation allows the document `doc`, returns no result
for the document `empty`, fails for the document `bad` and denies every other
document, and that lists attached entities as `attachedInTwoPages` does. -/
def selective : Client Unit :=
  { attachedInTwoPages with
    SimulateCustomPolicy := fun s input =>
      if input.PolicyInputList = ["doc"] then (.ok ⟨[⟨.Allowed⟩]⟩, s)
      else if input.PolicyInputList = ["empty"] then (.ok ⟨[]⟩, s)
      else if input.PolicyInputList = ["bad"] then (.err "throttled", s)
      else (.ok ⟨[⟨.ImplicitDeny⟩]⟩, s) }

/-- The service `selective` with an entity listing that never ends: every
page is empty and reports truncation. -/
def attachmentsNeverEnd : Client Unit :=
  { selective with
    ListEntitiesForPolicy := fun s _ => (.ok ⟨[], [], [], true, some "m"⟩, s) }

/-! ## Enumerators: lemmas -/

lemma policiesLoop_of_pagination {σ : Type} (iamClient : Client σ)
    {s s' : σ} {m : Option String} {pages : List ListPoliciesOutput}
    {failure : Option String}
    (h : Pagination
      (fun t k => iamClient.ListPolicies t { Scope := .Local, Marker := k })
      (fun p => p.IsTruncated) (fun p => p.Marker) s m pages failure s') :
    ∀ fuel, pages.length + failure.toList.length ≤ fuel →
      policiesLoop iamClient fuel s m =
        ⟨pages.flatMap (fun p => p.Policies),
          failure.toList.map (fun e => "error listing policies: " ++ e),
          .done, s'⟩ := by
  induction h with
  | last hc ht =>
    intro fuel hf
    obtain ⟨n, rfl⟩ : ∃ n, fuel = n + 1 := ⟨fuel - 1, by simp at hf; omega⟩
    simp only [] at hc
    simp [policiesLoop, hc, ht]
  | fail hc =>
    intro fuel hf
    obtain ⟨n, rfl⟩ : ∃ n, fuel = n + 1 := ⟨fuel - 1, by simp at hf; omega⟩
    simp only [] at hc
    simp [policiesLoop, hc]
  | more hc ht _ ih =>
    intro fuel hf
    obtain ⟨n, rfl⟩ : ∃ n, fuel = n + 1 := ⟨fuel - 1, by simp at hf; omega⟩
    simp only [] at hc
    have hn := ih n (by simp at hf ⊢; omega)
    simp [policiesLoop, hc, ht, hn, StageResult.after]

lemma pagination_of_policiesLoop {σ : Type} (iamClient : Client σ) :
    ∀ (fuel : Nat) (s : σ) (m : Option String),
      (policiesLoop iamClient fuel s m).outcome ≠ .outOfFuel →
      ∃ pages failure,
        Pagination
          (fun t k => iamClient.ListPolicies t { Scope := .Local, Marker := k })
          (fun p => p.IsTruncated) (fun p => p.Marker) s m pages failure
          (policiesLoop iamClient fuel s m).state
        ∧ pages.length + failure.toList.length ≤ fuel := by
  intro fuel
  induction fuel with
  | zero => intro s m h; simp [policiesLoop] at h
  | succ n ih =>
    intro s m h
    rcases hc : iamClient.ListPolicies s { Scope := .Local, Marker := m } with ⟨r, s'⟩
    cases r with
    | err e =>
      refine ⟨[], some e, ?_, by simp⟩
      simp only [policiesLoop, hc]
      exact Pagination.fail hc
    | ok p =>
      by_cases ht : p.IsTruncated = true
      · have hout : (policiesLoop iamClient n s' p.Marker).outcome ≠ .outOfFuel := by
          simpa [policiesLoop, hc, ht, StageResult.after] using h
        obtain ⟨ps, f, hp, hl⟩ := ih s' p.Marker hout
        refine ⟨p :: ps, f, ?_, by simp at hl ⊢; omega⟩
        simp only [policiesLoop, hc, ht, if_true, StageResult.after]
        exact Pagination.more hc ht hp
      · have ht' : p.IsTruncated = false := by simpa using ht
        refine ⟨[p], none, ?_, by simp⟩
        simp only [policiesLoop, hc, ht']
        exact Pagination.last hc ht'

lemma usersLoop_of_pagination {σ : Type} (iamClient : Client σ)
    {s s' : σ} {m : Option String} {pages : List ListUsersOutput}
    {failure : Option String}
    (h : Pagination (fun t k => iamClient.ListUsers t { Marker := k })
      (fun p => p.IsTruncated) (fun p => p.Marker) s m pages failure s') :
    ∀ fuel, pages.length + failure.toList.length ≤ fuel →
      usersLoop iamClient fuel s m =
        ⟨pages.flatMap (fun p => p.Users),
          failure.toList.map (fun e => "error listing users: " ++ e ++ "\n"),
          .done, s'⟩ := by
  induction h with
  | last hc ht =>
    intro fuel hf
    obtain ⟨n, rfl⟩ : ∃ n, fuel = n + 1 := ⟨fuel - 1, by simp at hf; omega⟩
    simp only [] at hc
    simp [usersLoop, hc, ht]
  | fail hc =>
    intro fuel hf
    obtain ⟨n, rfl⟩ : ∃ n, fuel = n + 1 := ⟨fuel - 1, by simp at hf; omega⟩
    simp only [] at hc
    simp [usersLoop, hc]
  | more hc ht _ ih =>
    intro fuel hf
    obtain ⟨n, rfl⟩ : ∃ n, fuel = n + 1 := ⟨fuel - 1, by simp at hf; omega⟩
    simp only [] at hc
    have hn := ih n (by simp at hf ⊢; omega)
    simp [usersLoop, hc, ht, hn, StageResult.after]

lemma pagination_of_usersLoop {σ : Type} (iamClient : Client σ) :
    ∀ (fuel : Nat) (s : σ) (m : Option String),
      (usersLoop iamClient fuel s m).outcome ≠ .outOfFuel →
      ∃ pages failure,
        Pagination (fun t k => iamClient.ListUsers t { Marker := k })
          (fun p => p.IsTruncated) (fun p => p.Marker) s m pages failure
          (usersLoop iamClient fuel s m).state
        ∧ pages.length + failure.toList.length ≤ fuel := by
  intro fuel
  induction fuel with
  | zero => intro s m h; simp [usersLoop] at h
  | succ n ih =>
    intro s m h
    rcases hc : iamClient.ListUsers s { Marker := m } with ⟨r, s'⟩
    cases r with
    | err e =>
      refine ⟨[], some e, ?_, by simp⟩
      simp only [usersLoop, hc]
      exact Pagination.fail hc
    | ok p =>
      by_cases ht : p.IsTruncated = true
      · have hout : (usersLoop iamClient n s' p.Marker).outcome ≠ .outOfFuel := by
          simpa [usersLoop, hc, ht, StageResult.after] using h
        obtain ⟨ps, f, hp, hl⟩ := ih s' p.Marker hout
        refine ⟨p :: ps, f, ?_, by simp at hl ⊢; omega⟩
        simp only [usersLoop, hc, ht, if_true, StageResult.after]
        exact Pagination.more hc ht hp
      · have ht' : p.IsTruncated = false := by simpa using ht
        refine ⟨[p], none, ?_, by simp⟩
        simp only [usersLoop, hc, ht']
        exact Pagination.last hc ht'

/-! ## Enumerators: the claim -/

/-- C1.  Policy Enumerator and User Enumerator, for every listing service and
every start state.  Whenever the marker-threaded requests (first request
without marker, each later request with the marker of the previous page) are
answered by the pages `pages`, ending with the first page that reports no
truncation or with the first failing call, the enumerator, given fuel for
these calls, sends exactly the items of `pages`, concatenated in page order,
writes one diagnostic if the last call failed, and returns.  Conversely every
run that does not exhaust its fuel is of this kind. -/
theorem enumerators_emit_pages_in_order {σ : Type} (iamClient : Client σ) (s : σ) :
    (∀ pages failure s',
        Pagination
          (fun t k => iamClient.ListPolicies t { Scope := .Local, Marker := k })
          (fun p => p.IsTruncated) (fun p => p.Marker) s none pages failure s' →
        ∀ fuel, pages.length + failure.toList.length ≤ fuel →
          policies iamClient fuel s =
            ⟨pages.flatMap (fun p => p.Policies),
              failure.toList.map (fun e => "error listing policies: " ++ e),
              .done, s'⟩)
    ∧ (∀ fuel, (policies iamClient fuel s).outcome ≠ .outOfFuel →
        ∃ pages failure,
          Pagination
            (fun t k => iamClient.ListPolicies t { Scope := .Local, Marker := k })
            (fun p => p.IsTruncated) (fun p => p.Marker) s none pages failure
            (policies iamClient fuel s).state
          ∧ (policies iamClient fuel s).emitted
              = pages.flatMap (fun p => p.Policies))
    ∧ (∀ pages failure s',
        Pagination (fun t k => iamClient.ListUsers t { Marker := k })
          (fun p => p.IsTruncated) (fun p => p.Marker) s none pages failure s' →
        ∀ fuel, pages.length + failure.toList.length ≤ fuel →
          users iamClient fuel s =
            ⟨pages.flatMap (fun p => p.Users),
              failure.toList.map (fun e => "error listing users: " ++ e ++ "\n"),
              .done, s'⟩)
    ∧ (∀ fuel, (users iamClient fuel s).outcome ≠ .outOfFuel →
        ∃ pages failure,
          Pagination (fun t k => iamClient.ListUsers t { Marker := k })
            (fun p => p.IsTruncated) (fun p => p.Marker) s none pages failure
            (users iamClient fuel s).state
          ∧ (users iamClient fuel s).emitted = pages.flatMap (fun p => p.Users)) := by
  refine ⟨?_, ?_, ?_, ?_⟩
  · intro pages failure s' h fuel hf
    exact policiesLoop_of_pagination iamClient h fuel hf
  · intro fuel h
    obtain ⟨pages, failure, hp, hl⟩ := pagination_of_policiesLoop iamClient fuel s none h
    refine ⟨pages, failure, hp, ?_⟩
    have := policiesLoop_of_pagination iamClient hp fuel hl
    simp only [policies]
    rw [this]
  · intro pages failure s' h fuel hf
    exact usersLoop_of_pagination iamClient h fuel hf
  · intro fuel h
    obtain ⟨pages, failure, hp, hl⟩ := pagination_of_usersLoop iamClient fuel s none h
    refine ⟨pages, failure, hp, ?_⟩
    have := usersLoop_of_pagination iamClient hp fuel hl
    simp only [users]
    rw [this]

/-- C1 at the two-page service: both pages are sent in order, the second
request carrying the marker `m1` that the first page returned. -/
theorem enumerators_emit_pages_in_order_witness :
    policies twoPageService 2 ()
        = ⟨[policyA, policyB, policyC], [], .done, ()⟩
    ∧ users twoPageService 2 () = ⟨[userA, userB], [], .done, ()⟩ :=
  ⟨(enumerators_emit_pages_in_order twoPageService ()).1
      [⟨[policyA, policyB], true, some "m1"⟩, ⟨[policyC], false, none⟩] none ()
      (Pagination.more rfl rfl (Pagination.last rfl rfl)) 2 (by decide),
    (enumerators_emit_pages_in_order twoPageService ()).2.2.1
      [⟨[userA], true, some "m1"⟩, ⟨[userB], false, none⟩] none ()
      (Pagination.more rfl rfl (Pagination.last rfl rfl)) 2 (by decide)⟩

/-! ## Policy Version Resolver -/

lemma policyVersionsLoop_of_pagination {σ : Type} (iamClient : Client σ)
    (policy : Policy) {s s' : σ} {m : Option String}
    {pages : List ListPolicyVersionsOutput} {failure : Option String}
    (h : Pagination
      (fun t k => iamClient.ListPolicyVersions t
        { PolicyArn := policy.Arn, Marker := k })
      (fun p => p.IsTruncated) (fun p => p.Marker) s m pages failure s') :
    ∀ fuel, pages.length + failure.toList.length ≤ fuel →
      policyVersionsLoop iamClient policy fuel s m =
        ⟨versionPairs policy pages,
          failure.toList.map (fun e => "error listing policy versions: " ++ e),
          .done, s'⟩ := by
  induction h with
  | last hc ht =>
    intro fuel hf
    obtain ⟨n, rfl⟩ : ∃ n, fuel = n + 1 := ⟨fuel - 1, by simp at hf; omega⟩
    simp only [] at hc
    simp [policyVersionsLoop, hc, ht, versionPairs]
  | fail hc =>
    intro fuel hf
    obtain ⟨n, rfl⟩ : ∃ n, fuel = n + 1 := ⟨fuel - 1, by simp at hf; omega⟩
    simp only [] at hc
    simp [policyVersionsLoop, hc, versionPairs]
  | more hc ht _ ih =>
    intro fuel hf
    obtain ⟨n, rfl⟩ : ∃ n, fuel = n + 1 := ⟨fuel - 1, by simp at hf; omega⟩
    simp only [] at hc
    have hn := ih n (by simp at hf ⊢; omega)
    simp [policyVersionsLoop, hc, ht, hn, StageResult.after, versionPairs]

lemma Pagination.exists_err {σ π : Type} {call : σ → Option String → CallResult π × σ}
    {truncated : π → Bool} {next : π → Option String} {s s' : σ}
    {m : Option String} {pages : List π} {failure : Option String}
    (h : Pagination call truncated next s m pages failure s') :
    ∀ e, failure = some e → ∃ t k t', call t k = (.err e, t') := by
  induction h with
  | last _ _ => intro e he; simp at he
  | @fail s s' m e' hc =>
    intro e he
    simp only [Option.some.injEq] at he
    subst he
    exact ⟨s, m, s', hc⟩
  | more _ _ _ ih => exact ih

lemma pagination_of_policyVersionsLoop {σ : Type} (iamClient : Client σ)
    (policy : Policy) :
    ∀ (fuel : Nat) (s : σ) (m : Option String),
      (policyVersionsLoop iamClient policy fuel s m).outcome ≠ .outOfFuel →
      ∃ pages failure,
        Pagination
          (fun t k => iamClient.ListPolicyVersions t
            { PolicyArn := policy.Arn, Marker := k })
          (fun p => p.IsTruncated) (fun p => p.Marker) s m pages failure
          (policyVersionsLoop iamClient policy fuel s m).state
        ∧ pages.length + failure.toList.length ≤ fuel := by
  intro fuel
  induction fuel with
  | zero => intro s m h; simp [policyVersionsLoop] at h
  | succ n ih =>
    intro s m h
    rcases hc : iamClient.ListPolicyVersions s
        { PolicyArn := policy.Arn, Marker := m } with ⟨r, s'⟩
    cases r with
    | err e =>
      refine ⟨[], some e, ?_, by simp⟩
      simp only [policyVersionsLoop, hc]
      exact Pagination.fail hc
    | ok p =>
      by_cases ht : p.IsTruncated = true
      · have hout : (policyVersionsLoop iamClient policy n s' p.Marker).outcome
            ≠ .outOfFuel := by
          simpa [policyVersionsLoop, hc, ht, StageResult.after] using h
        obtain ⟨ps, f, hp, hl⟩ := ih s' p.Marker hout
        refine ⟨p :: ps, f, ?_, by simp at hl ⊢; omega⟩
        simp only [policyVersionsLoop, hc, ht, if_true, StageResult.after]
        exact Pagination.more hc ht hp
      · have ht' : p.IsTruncated = false := by simpa using ht
        refine ⟨[p], none, ?_, by simp⟩
        simp only [policyVersionsLoop, hc, ht']
        exact Pagination.last hc ht'

lemma policyVersions_of_versionListings {σ : Type} (iamClient : Client σ)
    (fuel : Nat) {s s' : σ} {input : List Policy}
    {listings : List (List ListPolicyVersionsOutput)}
    (h : VersionListings iamClient s input listings s')
    (hfuel : ∀ pages ∈ listings, pages.length ≤ fuel) :
    policyVersions iamClient fuel s input =
      ⟨(input.zip listings).flatMap (fun pl => versionPairs pl.1 pl.2),
        [], .done, s'⟩ := by
  induction h with
  | nil => simp [policyVersions]
  | @cons s s1 s2 policy rest pages listings hp _ ih =>
    have hl := policyVersionsLoop_of_pagination iamClient policy hp fuel
      (by simpa using hfuel pages (by simp))
    have hr := ih (fun pages hmem => hfuel pages (by simp [hmem]))
    simp [policyVersions, hl, hr, StageResult.after]

lemma versionListings_of_policyVersions {σ : Type} (iamClient : Client σ)
    (fuel : Nat)
    (hok : ∀ t input, ∃ out t', iamClient.ListPolicyVersions t input = (.ok out, t'))
    (input : List Policy) :
    ∀ (s : σ), (policyVersions iamClient fuel s input).outcome ≠ .outOfFuel →
      ∃ listings,
        VersionListings iamClient s input listings
          (policyVersions iamClient fuel s input).state
        ∧ ∀ pages ∈ listings, pages.length ≤ fuel := by
  induction input with
  | nil => intro s _; exact ⟨[], by simpa [policyVersions] using VersionListings.nil, by simp⟩
  | cons policy rest ih =>
    intro s h
    by_cases hloop : (policyVersionsLoop iamClient policy fuel s none).outcome = .outOfFuel
    · simp [policyVersions, hloop] at h
    · obtain ⟨pages, failure, hp, hl⟩ :=
        pagination_of_policyVersionsLoop iamClient policy fuel s none hloop
      generalize (policyVersionsLoop iamClient policy fuel s none).state = s1 at hp
      cases failure with
      | some e =>
        obtain ⟨t, k, t', herr⟩ := hp.exists_err e rfl
        obtain ⟨out, t'', hout⟩ := hok t { PolicyArn := policy.Arn, Marker := k }
        rw [hout] at herr
        simp at herr
      | none =>
        have hrun := policyVersionsLoop_of_pagination iamClient policy hp fuel hl
        have hstate : policyVersions iamClient fuel s (policy :: rest) =
            (policyVersions iamClient fuel s1 rest).after
              (versionPairs policy pages) [] := by
          simp [policyVersions, hrun]
        rw [hstate] at h ⊢
        simp only [StageResult.after] at h ⊢
        obtain ⟨listings, hrest, hfuel⟩ := ih s1 h
        refine ⟨pages :: listings, .cons hp hrest, ?_⟩
        intro ps hmem
        simp only [List.mem_cons] at hmem
        rcases hmem with rfl | hmem
        · simpa using hl
        · exact hfuel ps hmem

/-- C2.  Policy Version Resolver, for every version-listing service.  If for
each policy of the input, in input order, the marker-threaded listing keyed
by that policy's ARN and started without marker is the finite, non-failing
page sequence given by `listings`, then the resolver, with fuel for the
longest listing, sends for each policy in input order one pair for every
version of every page of its listing, in page order and whatever the
version's default flag, writes nothing and returns.  Conversely, with a
service that never fails, every run that does not exhaust its fuel is of
this kind. -/
theorem policyVersions_emits_every_version {σ : Type} (iamClient : Client σ)
    (fuel : Nat) (s : σ) (input : List Policy) :
    (∀ listings s', VersionListings iamClient s input listings s' →
        (∀ pages ∈ listings, pages.length ≤ fuel) →
        policyVersions iamClient fuel s input =
          ⟨(input.zip listings).flatMap (fun pl => versionPairs pl.1 pl.2),
            [], .done, s'⟩)
    ∧ ((∀ t request, ∃ out t',
          iamClient.ListPolicyVersions t request = (.ok out, t')) →
        (policyVersions iamClient fuel s input).outcome ≠ .outOfFuel →
        ∃ listings,
          VersionListings iamClient s input listings
            (policyVersions iamClient fuel s input).state
          ∧ (policyVersions iamClient fuel s input).emitted
              = (input.zip listings).flatMap (fun pl => versionPairs pl.1 pl.2)) := by
  constructor
  · intro listings s' h hfuel
    exact policyVersions_of_versionListings iamClient fuel h hfuel
  · intro hok hout
    obtain ⟨listings, hl, hfuel⟩ :=
      versionListings_of_policyVersions iamClient fuel hok input s hout
    refine ⟨listings, hl, ?_⟩
    rw [policyVersions_of_versionListings iamClient fuel hl hfuel]

/-- C2 at a service listing every policy's versions in two pages: both
versions of both policies are paired, the non-default `version1` included. -/
theorem policyVersions_emits_every_version_witness :
    policyVersions versionsInTwoPages 2 () [policyA, policyB] =
      ⟨[⟨policyA, version1⟩, ⟨policyA, version2⟩,
        ⟨policyB, version1⟩, ⟨policyB, version2⟩], [], .done, ()⟩ :=
  (policyVersions_emits_every_version versionsInTwoPages 2 () [policyA, policyB]).1
    [[⟨[version1], true, some "m1"⟩, ⟨[version2], false, none⟩],
     [⟨[version1], true, some "m1"⟩, ⟨[version2], false, none⟩]] ()
    (.cons (.more rfl rfl (.last rfl rfl))
      (.cons (.more rfl rfl (.last rfl rfl)) .nil))
    (by decide)

/-- C5 as stated fails.  The version listing fails for `policyA`, the first
policy of the input, and the resolver still sends both pairs of `policyB`,
which follows it. -/
theorem policyVersions_continues_after_failure :
    (versionsFailForA.ListPolicyVersions ()
        { PolicyArn := policyA.Arn, Marker := none }).1 = .err "denied"
    ∧ (policyVersions versionsFailForA 1 () [policyA, policyB]).emitted
        = [⟨policyB, version1⟩, ⟨policyB, version2⟩] := by
  constructor <;> rfl

lemma policyVersions_append {σ : Type} (iamClient : Client σ) (fuel : Nat)
    (before rest : List Policy) :
    ∀ (s : σ), (policyVersions iamClient fuel s before).outcome = .done →
      policyVersions iamClient fuel s (before ++ rest) =
        ⟨(policyVersions iamClient fuel s before).emitted
            ++ (policyVersions iamClient fuel
                (policyVersions iamClient fuel s before).state rest).emitted,
          (policyVersions iamClient fuel s before).stdout
            ++ (policyVersions iamClient fuel
                (policyVersions iamClient fuel s before).state rest).stdout,
          (policyVersions iamClient fuel
            (policyVersions iamClient fuel s before).state rest).outcome,
          (policyVersions iamClient fuel
            (policyVersions iamClient fuel s before).state rest).state⟩ := by
  induction before with
  | nil => intro s _; simp [policyVersions]
  | cons policy more ih =>
    intro s h
    cases hloop : (policyVersionsLoop iamClient policy fuel s none).outcome with
    | done =>
      have hmore : (policyVersions iamClient fuel
          (policyVersionsLoop iamClient policy fuel s none).state more).outcome = .done := by
        simpa [policyVersions, hloop, StageResult.after] using h
      have := ih _ hmore
      simp [policyVersions, hloop, StageResult.after, this]
    | panicked q => simp [policyVersions, hloop] at h
    | outOfFuel => simp [policyVersions, hloop] at h

lemma policyVersions_cons_of_failure {σ : Type} (iamClient : Client σ)
    (fuel : Nat) (s s' : σ) (policy : Policy) (rest : List Policy)
    (pages : List ListPolicyVersionsOutput) (e : String)
    (h : Pagination
      (fun t k => iamClient.ListPolicyVersions t
        { PolicyArn := policy.Arn, Marker := k })
      (fun p => p.IsTruncated) (fun p => p.Marker) s none pages (some e) s')
    (hfuel : pages.length + 1 ≤ fuel) :
    policyVersions iamClient fuel s (policy :: rest) =
      ⟨versionPairs policy pages ++ (policyVersions iamClient fuel s' rest).emitted,
        ["error listing policy versions: " ++ e]
          ++ (policyVersions iamClient fuel s' rest).stdout,
        (policyVersions iamClient fuel s' rest).outcome,
        (policyVersions iamClient fuel s' rest).state⟩ := by
  have hl := policyVersionsLoop_of_pagination iamClient policy h fuel
    (by simpa using hfuel)
  simp [policyVersions, hl, StageResult.after]

/-- C5, amended.  If the resolver has got through the policies `before` and
the version-listing call then fails while it is paging through `policy`,
after the pages `pages`, the resolver sends the pairs of `pages`, writes the
diagnostic, sends nothing more for `policy`, and goes on with the policies
`rest` that follow: what it sends and writes for them, and how it ends, is
what it sends, writes and ends with when it processes `rest` from the service
state the failing call left.  In particular, when the listings of `rest` are
finite and do not fail, one pair is sent for every version of every policy of
`rest`. -/
theorem policyVersions_failure_ends_one_policy {σ : Type} (iamClient : Client σ)
    (fuel : Nat) (s s' : σ) (before : List Policy) (policy : Policy)
    (rest : List Policy) (pages : List ListPolicyVersionsOutput) (e : String)
    (hbefore : (policyVersions iamClient fuel s before).outcome = .done)
    (h : Pagination
      (fun t k => iamClient.ListPolicyVersions t
        { PolicyArn := policy.Arn, Marker := k })
      (fun p => p.IsTruncated) (fun p => p.Marker)
      (policyVersions iamClient fuel s before).state none pages (some e) s')
    (hfuel : pages.length + 1 ≤ fuel) :
    ((policyVersions iamClient fuel s (before ++ policy :: rest)).emitted =
        (policyVersions iamClient fuel s before).emitted
          ++ versionPairs policy pages
          ++ (policyVersions iamClient fuel s' rest).emitted
      ∧ (policyVersions iamClient fuel s (before ++ policy :: rest)).stdout =
        (policyVersions iamClient fuel s before).stdout
          ++ ["error listing policy versions: " ++ e]
          ++ (policyVersions iamClient fuel s' rest).stdout
      ∧ (policyVersions iamClient fuel s (before ++ policy :: rest)).outcome =
        (policyVersions iamClient fuel s' rest).outcome
      ∧ (policyVersions iamClient fuel s (before ++ policy :: rest)).state =
        (policyVersions iamClient fuel s' rest).state)
    ∧ (∀ listings s'', VersionListings iamClient s' rest listings s'' →
        (∀ ps ∈ listings, ps.length ≤ fuel) →
        (policyVersions iamClient fuel s (before ++ policy :: rest)).emitted =
            (policyVersions iamClient fuel s before).emitted
              ++ versionPairs policy pages
              ++ (rest.zip listings).flatMap (fun pl => versionPairs pl.1 pl.2)
          ∧ (policyVersions iamClient fuel s (before ++ policy :: rest)).stdout =
            (policyVersions iamClient fuel s before).stdout
              ++ ["error listing policy versions: " ++ e]
          ∧ (policyVersions iamClient fuel s (before ++ policy :: rest)).outcome = .done
          ∧ (policyVersions iamClient fuel s (before ++ policy :: rest)).state = s'') := by
  have happ := policyVersions_append iamClient fuel before (policy :: rest) s hbefore
  have hcons := policyVersions_cons_of_failure iamClient fuel _ s' policy rest pages e
    h hfuel
  constructor
  · rw [happ, hcons]
    simp
  · intro listings s'' hl hf
    have hrest := policyVersions_of_versionListings iamClient fuel hl hf
    rw [happ, hcons, hrest]
    simp

/-- C5, amended, at a service whose listing for `policyA` fails on its second
page: after both pairs of `policyB`, the pair of the first page of `policyA`
is sent and the diagnostic written, nothing more is sent for `policyA`, and
both pairs of `policyC`, which follows, are sent. -/
theorem policyVersions_failure_ends_one_policy_witness :
    (policyVersions versionsFailOnSecondPageOfA 2 ()
        [policyB, policyA, policyC]).emitted =
      [⟨policyB, version1⟩, ⟨policyB, version2⟩, ⟨policyA, version1⟩,
        ⟨policyC, version1⟩, ⟨policyC, version2⟩]
    ∧ (policyVersions versionsFailOnSecondPageOfA 2 ()
        [policyB, policyA, policyC]).stdout =
      ["error listing policy versions: denied"]
    ∧ (policyVersions versionsFailOnSecondPageOfA 2 ()
        [policyB, policyA, policyC]).outcome = .done
    ∧ (policyVersions versionsFailOnSecondPageOfA 2 ()
        [policyB, policyA, policyC]).state = () :=
  (policyVersions_failure_ends_one_policy versionsFailOnSecondPageOfA 2 () ()
    [policyB] policyA [policyC] [⟨[version1], true, some "m1"⟩] "denied"
    rfl (.more rfl rfl (.fail rfl)) (by decide)).2
    [[⟨[version1, version2], false, none⟩]] () (.cons (.last rfl rfl) .nil) (by decide)

/-! ## Document fetchers -/

lemma policyDocuments_of_fetchAndDecode_some {σ : Type} (iamClient : Client σ)
    (QueryUnescape : String → CallResult String) (s s' : σ)
    (pair : PolicyVersionPair) (rest : List PolicyVersionPair) (info : PolicyInfo)
    (h : fetchAndDecode iamClient QueryUnescape s pair = some (info, s')) :
    policyDocuments iamClient QueryUnescape s (pair :: rest) =
      (policyDocuments iamClient QueryUnescape s' rest).after [info] [] := by
  unfold fetchAndDecode at h
  conv_lhs => unfold policyDocuments
  split at h
  · rename_i versionId isDefault encoded t hc
    rw [hc]
    simp only []
    cases hq : QueryUnescape encoded with
    | ok doc =>
      rw [hq] at h
      simp only [Option.some.injEq, Prod.mk.injEq] at h
      obtain ⟨rfl, rfl⟩ := h
      rfl
    | err e => rw [hq] at h; simp at h
  · simp at h

lemma policyDocuments_of_fetchAndDecode_none {σ : Type} (iamClient : Client σ)
    (QueryUnescape : String → CallResult String) (s : σ)
    (pair : PolicyVersionPair) (rest : List PolicyVersionPair)
    (h : fetchAndDecode iamClient QueryUnescape s pair = none) :
    (policyDocuments iamClient QueryUnescape s (pair :: rest)).emitted = [] := by
  unfold fetchAndDecode at h
  unfold policyDocuments
  rcases hc : iamClient.GetPolicyVersion s
      { PolicyArn := pair.Policy.Arn, VersionId := pair.Version.VersionId } with ⟨r, t⟩
  rw [hc] at h
  cases r with
  | err e => rfl
  | ok out =>
    obtain ⟨pv⟩ := out
    cases pv with
    | none => rfl
    | some v =>
      obtain ⟨versionId, isDefault, document⟩ := v
      cases document with
      | none => rfl
      | some encoded =>
        simp only [] at h ⊢
        cases hq : QueryUnescape encoded with
        | ok doc => rw [hq] at h; simp at h
        | err e =>
          simp only []
          split <;> rfl

/-- C6.  Policy Document Fetcher, for every service, decoder, start state and
input.  The input splits into a leading run `fetched` whose pairs are all
fetched and decoded, giving `infos`, and a remainder `rest` that is empty or
starts with a pair whose fetch or decoding fails; the fetcher sends exactly
`infos`: nothing for the failing pair, nothing for any later pair. -/
theorem policyDocuments_emits_longest_fetched_run {σ : Type}
    (iamClient : Client σ) (QueryUnescape : String → CallResult String)
    (s : σ) (input : List PolicyVersionPair) :
    ∃ fetched rest infos s',
      input = fetched ++ rest
      ∧ Fetched iamClient QueryUnescape s fetched infos s'
      ∧ (∀ pair ∈ rest.head?, fetchAndDecode iamClient QueryUnescape s' pair = none)
      ∧ infos.length = fetched.length
      ∧ (policyDocuments iamClient QueryUnescape s input).emitted = infos := by
  induction input generalizing s with
  | nil => exact ⟨[], [], [], s, rfl, .nil, by simp, rfl, rfl⟩
  | cons pair rest ih =>
    cases h : fetchAndDecode iamClient QueryUnescape s pair with
    | none =>
      refine ⟨[], pair :: rest, [], s, rfl, .nil, by simpa using h, rfl, ?_⟩
      exact policyDocuments_of_fetchAndDecode_none iamClient QueryUnescape s pair rest h
    | some r =>
      obtain ⟨info, t⟩ := r
      obtain ⟨fetched, rest', infos, s', hsplit, hf, hnext, hlen, hem⟩ := ih t
      refine ⟨pair :: fetched, rest', info :: infos, s', by simp [hsplit],
        .cons h hf, hnext, by simp [hlen], ?_⟩
      rw [policyDocuments_of_fetchAndDecode_some iamClient QueryUnescape s t pair rest info h]
      simp [StageResult.after, hem]

/-- The fetcher at the example document service: the document of `version2`
does not decode, so only the first of the three pairs is sent. -/
theorem policyDocuments_stops_at_decode_failure :
    policyDocuments documentService exampleUnescape ()
        [⟨policyA, version1⟩, ⟨policyA, version2⟩, ⟨policyB, version1⟩] =
      ⟨[⟨some "arn:a", some "a", some "/", some "v1", none, some "doc"⟩],
        ["arn:a" ++ " " ++ "v2" ++ " error=unable to decode policy document "
          ++ "invalid URL escape \"%zz\""], .done, ()⟩ := by
  rfl

lemma fetchAndDecode_some_arn {σ : Type} (iamClient : Client σ)
    (QueryUnescape : String → CallResult String) (s t : σ)
    (pair : PolicyVersionPair) (info : PolicyInfo)
    (h : fetchAndDecode iamClient QueryUnescape s pair = some (info, t)) :
    info.PolicyArn = pair.Policy.Arn
    ∧ ∃ out, iamClient.GetPolicyVersion s
        { PolicyArn := pair.Policy.Arn, VersionId := pair.Version.VersionId }
        = (.ok out, t) := by
  unfold fetchAndDecode at h
  split at h
  · rename_i versionId isDefault encoded t' hc
    cases hq : QueryUnescape encoded with
    | ok doc =>
      rw [hq] at h
      simp only [Option.some.injEq, Prod.mk.injEq] at h
      obtain ⟨rfl, rfl⟩ := h
      exact ⟨rfl, _, hc⟩
    | err e => rw [hq] at h; simp at h
  · simp at h

lemma policyDocuments_emitted_arn {σ : Type} (iamClient : Client σ)
    (QueryUnescape : String → CallResult String)
    (hrequired : ∀ s versionId, ∃ e s',
      iamClient.GetPolicyVersion s { PolicyArn := none, VersionId := versionId }
        = (.err e, s'))
    (input : List PolicyVersionPair) :
    ∀ (s : σ) (info : PolicyInfo),
      info ∈ (policyDocuments iamClient QueryUnescape s input).emitted →
      ∃ arn, info.PolicyArn = some arn := by
  induction input with
  | nil => intro s info h; simp [policyDocuments] at h
  | cons pair rest ih =>
    intro s info h
    cases hf : fetchAndDecode iamClient QueryUnescape s pair with
    | none =>
      rw [policyDocuments_of_fetchAndDecode_none iamClient QueryUnescape s pair rest hf] at h
      simp at h
    | some r =>
      obtain ⟨first, t⟩ := r
      rw [policyDocuments_of_fetchAndDecode_some iamClient QueryUnescape s t pair rest
        first hf] at h
      simp only [StageResult.after, List.singleton_append, List.mem_cons] at h
      rcases h with rfl | h
      · obtain ⟨harn, out, hc⟩ :=
          fetchAndDecode_some_arn iamClient QueryUnescape s t pair info hf
        cases hp : pair.Policy.Arn with
        | some arn => exact ⟨arn, by rw [harn, hp]⟩
        | none =>
          obtain ⟨e, s', he⟩ := hrequired s pair.Version.VersionId
          rw [hp, he] at hc
          simp at hc
      · exact ih t info h

lemma userPolicyDocuments_emitted_arn {σ : Type} (iamClient : Client σ)
    (QueryUnescape : String → CallResult String) (input : List UserPolicyPair) :
    ∀ (s : σ) (info : PolicyInfo),
      info ∈ (userPolicyDocuments iamClient QueryUnescape s input).emitted →
      info.PolicyArn = none := by
  induction input with
  | nil => intro s info h; simp [userPolicyDocuments] at h
  | cons userPolicy rest ih =>
    intro s info h
    unfold userPolicyDocuments at h
    rcases hc : iamClient.GetUserPolicy s
        { PolicyName := userPolicy.UserPolicyName, UserName := userPolicy.UserName }
      with ⟨r, t⟩
    rw [hc] at h
    cases r with
    | err e => simp at h
    | ok out =>
      simp only [] at h
      cases hd : out.PolicyDocument with
      | none => rw [hd] at h; simp at h
      | some encoded =>
        rw [hd] at h
        simp only [] at h
        cases hq : QueryUnescape encoded with
        | err e =>
          rw [hq] at h
          simp only [] at h
          split at h <;> simp at h
        | ok doc =>
          rw [hq] at h
          simp only [StageResult.after, List.singleton_append, List.mem_cons] at h
          rcases h with rfl | h
          · rfl
          · exact ih t info h

/-- C9.  Every `PolicyInfo` sent by the Policy Document Fetcher has its ARN
present, for every client that rejects a `GetPolicyVersion` request without
the required `PolicyArn` (the fetcher copies the ARN pointer of the pair whose
document it fetched), and the evaluator reports it in its managed branch.
Every `PolicyInfo` sent by the User Policy Document Fetcher has its ARN
absent, and the evaluator reports it in its inline branch. -/
theorem policyInfo_discriminant {σ : Type} (iamClient : Client σ)
    (QueryUnescape : String → CallResult String) :
    ((∀ s versionId, ∃ e s',
        iamClient.GetPolicyVersion s { PolicyArn := none, VersionId := versionId }
          = (.err e, s')) →
      ∀ (s : σ) (input : List PolicyVersionPair) (info : PolicyInfo),
        info ∈ (policyDocuments iamClient QueryUnescape s input).emitted →
        ∃ arn, info.PolicyArn = some arn
          ∧ ∀ (fuel : Nat) (t : σ) (err : Option String),
              report iamClient fuel t info err
                = reportManaged iamClient fuel t arn info err)
    ∧ (∀ (s : σ) (input : List UserPolicyPair) (info : PolicyInfo),
        info ∈ (userPolicyDocuments iamClient QueryUnescape s input).emitted →
        info.PolicyArn = none
          ∧ ∀ (fuel : Nat) (t : σ) (err : Option String),
              report iamClient fuel t info err = reportInline t info err) := by
  constructor
  · intro hrequired s input info h
    obtain ⟨arn, harn⟩ :=
      policyDocuments_emitted_arn iamClient QueryUnescape hrequired input s info h
    refine ⟨arn, harn, ?_⟩
    intro fuel t err
    simp [report, harn]
  · intro s input info h
    have harn := userPolicyDocuments_emitted_arn iamClient QueryUnescape input s info h
    refine ⟨harn, ?_⟩
    intro fuel t err
    simp [report, harn]

/-- C9 at the example document service, which rejects requests without
`PolicyArn`: the document sent for `policyA` carries the ARN of `policyA`. -/
theorem policyInfo_discriminant_witness :
    (∀ (s : Unit) versionId, ∃ e s',
        documentService.GetPolicyVersion s
          { PolicyArn := none, VersionId := versionId } = (.err e, s'))
    ∧ ∃ arn,
        (⟨some "arn:a", some "a", some "/", some "v1", none, some "doc"⟩ : PolicyInfo).PolicyArn
          = some arn
        ∧ ∀ (fuel : Nat) (t : Unit) (err : Option String),
            report documentService fuel t
                ⟨some "arn:a", some "a", some "/", some "v1", none, some "doc"⟩ err
              = reportManaged documentService fuel t arn
                ⟨some "arn:a", some "a", some "/", some "v1", none, some "doc"⟩ err :=
  ⟨fun _ _ => ⟨_, _, rfl⟩,
    (policyInfo_discriminant documentService exampleUnescape).1
      (fun _ _ => ⟨_, _, rfl⟩) () [⟨policyA, version1⟩]
      ⟨some "arn:a", some "a", some "/", some "v1", none, some "doc"⟩
      (by decide)⟩

/-! ## Evaluator/Reporter -/

lemma listEntities_of_pagination {σ : Type} (iamClient : Client σ)
    (policyArn : String) {s s' : σ} {m : Option String}
    {pages : List ListEntitiesForPolicyOutput} {failure : Option String}
    (h : Pagination
      (fun t k => iamClient.ListEntitiesForPolicy t
        { PolicyArn := some policyArn, Marker := k })
      (fun p => p.IsTruncated) (fun p => p.Marker) s m pages failure s') :
    ∀ fuel, pages.length + failure.toList.length ≤ fuel →
      listEntities iamClient policyArn fuel s m =
        ⟨(pages.flatMap attachmentTargets).map targetLine
          ++ failure.toList.map (fun e =>
            "error trying to list entities for policy " ++ policyArn ++ ": " ++ e),
          .done, s'⟩ := by
  induction h with
  | last hc ht =>
    intro fuel hf
    obtain ⟨n, rfl⟩ : ∃ n, fuel = n + 1 := ⟨fuel - 1, by simp at hf; omega⟩
    simp only [] at hc
    simp [listEntities, hc, ht, attachmentTargets, targetLine, Function.comp_def]
  | fail hc =>
    intro fuel hf
    obtain ⟨n, rfl⟩ : ∃ n, fuel = n + 1 := ⟨fuel - 1, by simp at hf; omega⟩
    simp only [] at hc
    simp [listEntities, hc]
  | more hc ht _ ih =>
    intro fuel hf
    obtain ⟨n, rfl⟩ : ∃ n, fuel = n + 1 := ⟨fuel - 1, by simp at hf; omega⟩
    simp only [] at hc
    have hn := ih n (by simp at hf ⊢; omega)
    simp [listEntities, hc, ht, hn, SinkResult.after, attachmentTargets, targetLine,
      Function.comp_def]

lemma listEntities_outcome {σ : Type} (iamClient : Client σ) (policyArn : String) :
    ∀ (fuel : Nat) (s : σ) (m : Option String),
      (listEntities iamClient policyArn fuel s m).outcome ≠ .panicked .indexOutOfRange := by
  intro fuel
  induction fuel with
  | zero => intro s m; simp [listEntities]
  | succ n ih =>
    intro s m
    unfold listEntities
    rcases hc : iamClient.ListEntitiesForPolicy s
        { PolicyArn := some policyArn, Marker := m } with ⟨r, t⟩
    cases r with
    | err e => simp
    | ok out =>
      simp only []
      split
      · simpa [SinkResult.after] using ih t out.Marker
      · simp

lemma report_outcome {σ : Type} (iamClient : Client σ) (fuel : Nat) (s : σ)
    (item : PolicyInfo) (err : Option String) :
    (report iamClient fuel s item err).outcome ≠ .panicked .indexOutOfRange := by
  unfold report
  split
  · unfold reportInline
    split <;> simp
  · unfold reportManaged
    split
    · simp
    · simpa [SinkResult.after] using listEntities_outcome iamClient _ fuel s none

/-- C10.  For an item whose simulation call succeeds: when the result list is
`first :: rest`, the evaluator skips the item if the decision of `first` is
not Allowed and reports it otherwise, whatever `rest` is, and the lookup does
not fail; when the result list is empty, the evaluator fails with an
index-out-of-range error, having written nothing for the item. -/
theorem first_result_decides {σ : Type} (iamClient : Client σ)
    (action resource : String) (fuel : Nat) (s s' : σ) (item : PolicyInfo)
    (document : String) (out : SimulateCustomPolicyOutput)
    (hdoc : item.Document = some document)
    (hsim : iamClient.SimulateCustomPolicy s
        { ActionNames := [action], ResourceArns := [resource],
          PolicyInputList := [document] } = (.ok out, s')) :
    (∀ first rest, out.EvaluationResults = first :: rest →
        evaluateItem iamClient action resource fuel s item
            = (if first.EvalDecision ≠ .Allowed then ⟨[], .done, s'⟩
               else report iamClient fuel s' item none)
        ∧ (evaluateItem iamClient action resource fuel s item).outcome
            ≠ .panicked .indexOutOfRange)
    ∧ (out.EvaluationResults = [] →
        evaluateItem iamClient action resource fuel s item
          = ⟨[], .panicked .indexOutOfRange, s'⟩) := by
  constructor
  · intro first rest hres
    have heq : evaluateItem iamClient action resource fuel s item
        = (if first.EvalDecision ≠ .Allowed then ⟨[], .done, s'⟩
           else report iamClient fuel s' item none) := by
      simp [evaluateItem, hdoc, hsim, hres]
    refine ⟨heq, ?_⟩
    rw [heq]
    split
    · simp
    · exact report_outcome iamClient fuel s' item none
  · intro hres
    simp [evaluateItem, hdoc, hsim, hres]

/-- C10 at three services: a denied document is skipped, an allowed one is
reported, and an empty result list makes the evaluator fail with an
index-out-of-range error. -/
theorem first_result_decides_witness :
    evaluateItem denying "s3:GetObject" "arn:aws:s3:::bucket/key" 0 () inlineInfo
        = ⟨[], .done, ()⟩
    ∧ evaluateItem noResults "s3:GetObject" "arn:aws:s3:::bucket/key" 0 () inlineInfo
        = ⟨[], .panicked .indexOutOfRange, ()⟩ :=
  ⟨((first_result_decides denying "s3:GetObject" "arn:aws:s3:::bucket/key" 0 () ()
      inlineInfo "doc" ⟨[⟨.ImplicitDeny⟩]⟩ rfl rfl).1 ⟨.ImplicitDeny⟩ [] rfl).1,
    (first_result_decides noResults "s3:GetObject" "arn:aws:s3:::bucket/key" 0 () ()
      inlineInfo "doc" ⟨[]⟩ rfl rfl).2 rfl⟩

lemma evaluate_append {σ : Type} (iamClient : Client σ)
    (action resource : String) (fuel : Nat) (before rest : List PolicyInfo) :
    ∀ (s : σ), (evaluate iamClient action resource fuel s before).outcome = .done →
      evaluate iamClient action resource fuel s (before ++ rest) =
        ⟨(evaluate iamClient action resource fuel s before).stdout
            ++ (evaluate iamClient action resource fuel
                (evaluate iamClient action resource fuel s before).state rest).stdout,
          (evaluate iamClient action resource fuel
            (evaluate iamClient action resource fuel s before).state rest).outcome,
          (evaluate iamClient action resource fuel
            (evaluate iamClient action resource fuel s before).state rest).state⟩ := by
  induction before with
  | nil => intro s _; simp [evaluate]
  | cons item more ih =>
    intro s h
    cases hout : (evaluateItem iamClient action resource fuel s item).outcome with
    | done =>
      have hmore : (evaluate iamClient action resource fuel
          (evaluateItem iamClient action resource fuel s item).state more).outcome
          = .done := by
        simpa [evaluate, hout, SinkResult.after] using h
      have := ih _ hmore
      simp [evaluate, hout, SinkResult.after, this]
    | panicked q => simp [evaluate, hout] at h
    | outOfFuel => simp [evaluate, hout] at h

lemma listEntities_attachmentsNeverEnd (policyArn : String) :
    ∀ (fuel : Nat) (m : Option String),
      listEntities attachmentsNeverEnd policyArn fuel () m = ⟨[], .outOfFuel, ()⟩ := by
  intro fuel
  induction fuel with
  | zero => intro m; rfl
  | succ n ih =>
    intro m
    have hcall : attachmentsNeverEnd.ListEntitiesForPolicy ()
        { PolicyArn := some policyArn, Marker := m }
        = (.ok ⟨[], [], [], true, some "m"⟩, ()) := rfl
    simp [listEntities, hcall, ih, SinkResult.after]

/-- C8 as stated fails, in two ways.  The simulation call fails for an inline
item that lacks its user name: the evaluator panics on the missing field,
writes no report line and never takes the item that follows.  The simulation
call fails for a managed item whose attachment listing never ends: the report
line is written with the error text, but however many listing calls are
allowed the evaluator does not get to the item that follows. -/
theorem simulation_failure_can_end_evaluation :
    (simulationError selective "s3:GetObject" "arn:aws:s3:::bucket/key" ()
        failingNameless = some "throttled"
      ∧ evaluate selective "s3:GetObject" "arn:aws:s3:::bucket/key" 0 ()
          [failingNameless, inlineInfo] = ⟨[], .panicked .nilDereference, ()⟩)
    ∧ (simulationError attachmentsNeverEnd "s3:GetObject" "arn:aws:s3:::bucket/key" ()
        failingManaged = some "throttled"
      ∧ ∀ fuel : Nat,
          evaluate attachmentsNeverEnd "s3:GetObject" "arn:aws:s3:::bucket/key" fuel ()
            [failingManaged, inlineInfo]
          = ⟨["Arn=arn:b VersionId=v2", " error=throttled", "\n"], .outOfFuel, ()⟩) := by
  refine ⟨⟨rfl, rfl⟩, rfl, ?_⟩
  intro fuel
  have hsim : attachmentsNeverEnd.SimulateCustomPolicy ()
      { ActionNames := ["s3:GetObject"], ResourceArns := ["arn:aws:s3:::bucket/key"],
        PolicyInputList := ["bad"] } = (.err "throttled", ()) := rfl
  have hitem : evaluateItem attachmentsNeverEnd "s3:GetObject"
      "arn:aws:s3:::bucket/key" fuel () failingManaged
      = ⟨["Arn=arn:b VersionId=v2", " error=throttled", "\n"], .outOfFuel, ()⟩ := by
    simp only [evaluateItem, failingManaged, hsim, report, reportManaged,
      listEntities_attachmentsNeverEnd, SinkResult.after, errorSuffix]
    rfl
  simp [evaluate, hitem]

/-- C8, amended.  For every input stream `before ++ item :: rest` whose items
`before` the evaluator has got through: when the simulation call fails for
`item` and `item` carries the fields of its variant, the report line of
`item` is written with the error text appended, after what was written for
`before`; for a managed item the sub-lines of its attachment listing follow,
and the listing's diagnostic if it ended at a failing call.  After the line,
and for a managed item once the listing has ended, the evaluator goes on with
`rest`: what it writes then and how it ends is what it writes and ends with
when it evaluates `rest` from the service state then reached. -/
theorem simulation_failure_is_not_fatal {σ : Type} (iamClient : Client σ)
    (action resource : String) (fuel : Nat) (s s' : σ) (before : List PolicyInfo)
    (item : PolicyInfo) (rest : List PolicyInfo) (document e : String)
    (hbefore : (evaluate iamClient action resource fuel s before).outcome = .done)
    (hdoc : item.Document = some document)
    (hsim : iamClient.SimulateCustomPolicy
        (evaluate iamClient action resource fuel s before).state
        { ActionNames := [action], ResourceArns := [resource],
          PolicyInputList := [document] } = (.err e, s')) :
    (∀ userName policyName, item.PolicyArn = none →
        item.UserName = some userName → item.PolicyName = some policyName →
        (evaluate iamClient action resource fuel s (before ++ item :: rest)).stdout =
            (evaluate iamClient action resource fuel s before).stdout
              ++ ["(user inline policy) UserName=" ++ userName
                    ++ " PolicyName=" ++ policyName,
                  " error=" ++ e, "\n"]
              ++ (evaluate iamClient action resource fuel s' rest).stdout
        ∧ (evaluate iamClient action resource fuel s (before ++ item :: rest)).outcome =
            (evaluate iamClient action resource fuel s' rest).outcome
        ∧ (evaluate iamClient action resource fuel s (before ++ item :: rest)).state =
            (evaluate iamClient action resource fuel s' rest).state)
    ∧ (∀ arn versionId pages failure s'', item.PolicyArn = some arn →
        item.VersionId = some versionId →
        Pagination
          (fun t k => iamClient.ListEntitiesForPolicy t
            { PolicyArn := some arn, Marker := k })
          (fun p => p.IsTruncated) (fun p => p.Marker) s' none pages failure s'' →
        pages.length + failure.toList.length ≤ fuel →
        (evaluate iamClient action resource fuel s (before ++ item :: rest)).stdout =
            (evaluate iamClient action resource fuel s before).stdout
              ++ ["Arn=" ++ arn ++ " VersionId=" ++ versionId, " error=" ++ e, "\n"]
              ++ (pages.flatMap attachmentTargets).map targetLine
              ++ failure.toList.map (fun f =>
                  "error trying to list entities for policy " ++ arn ++ ": " ++ f)
              ++ (evaluate iamClient action resource fuel s'' rest).stdout
        ∧ (evaluate iamClient action resource fuel s (before ++ item :: rest)).outcome =
            (evaluate iamClient action resource fuel s'' rest).outcome
        ∧ (evaluate iamClient action resource fuel s (before ++ item :: rest)).state =
            (evaluate iamClient action resource fuel s'' rest).state) := by
  have happ := evaluate_append iamClient action resource fuel before (item :: rest) s
    hbefore
  constructor
  · intro userName policyName harn huser hname
    have hitem : evaluateItem iamClient action resource fuel
        (evaluate iamClient action resource fuel s before).state item =
        ⟨["(user inline policy) UserName=" ++ userName ++ " PolicyName=" ++ policyName,
          " error=" ++ e, "\n"], .done, s'⟩ := by
      simp [evaluateItem, hdoc, hsim, report, harn, reportInline, huser, hname, errorSuffix]
    rw [happ]
    simp [evaluate, hitem, SinkResult.after]
  · intro arn versionId pages failure s'' harn hversion hpages hfuel
    have hl := listEntities_of_pagination iamClient arn hpages fuel hfuel
    have hitem : evaluateItem iamClient action resource fuel
        (evaluate iamClient action resource fuel s before).state item =
        ⟨["Arn=" ++ arn ++ " VersionId=" ++ versionId, " error=" ++ e, "\n"]
          ++ ((pages.flatMap attachmentTargets).map targetLine
            ++ failure.toList.map (fun f =>
                "error trying to list entities for policy " ++ arn ++ ": " ++ f)),
          .done, s''⟩ := by
      simp [evaluateItem, hdoc, hsim, report, harn, reportManaged, hversion, errorSuffix,
        hl, SinkResult.after]
    rw [happ]
    simp [evaluate, hitem, SinkResult.after]

/-- C8, amended, at the service whose simulation fails for the document
`bad`.  After a skipped item, the failing inline item is reported with the
error text and the allowed item that follows is reported as usual; the
failing managed item is reported with the error text and its six attachment
sub-lines, and the allowed item that follows is reported as usual. -/
theorem simulation_failure_is_not_fatal_witness :
    ((evaluate selective "s3:GetObject" "arn:aws:s3:::bucket/key" 0 ()
        [deniedInfo, failingInline, inlineInfo]).stdout =
      ["(user inline policy) UserName=dave PolicyName=s", " error=throttled", "\n",
        "(user inline policy) UserName=alice PolicyName=p", "\n"]
      ∧ (evaluate selective "s3:GetObject" "arn:aws:s3:::bucket/key" 0 ()
        [deniedInfo, failingInline, inlineInfo]).outcome = .done
      ∧ (evaluate selective "s3:GetObject" "arn:aws:s3:::bucket/key" 0 ()
        [deniedInfo, failingInline, inlineInfo]).state = ())
    ∧ ((evaluate selective "s3:GetObject" "arn:aws:s3:::bucket/key" 2 ()
        [failingManaged, inlineInfo]).stdout =
      ["Arn=arn:b VersionId=v2", " error=throttled", "\n",
        "\tis attached to group: Name=g1 Id=G1\n",
        "\tis attached to user: Name=u1 Id=U1\n",
        "\tis attached to group: Name=g2 Id=G2\n",
        "\tis attached to role: Name=r1 Id=R1\n",
        "\tis attached to role: Name=r2 Id=R2\n",
        "\tis attached to user: Name=u2 Id=U2\n",
        "(user inline policy) UserName=alice PolicyName=p", "\n"]
      ∧ (evaluate selective "s3:GetObject" "arn:aws:s3:::bucket/key" 2 ()
        [failingManaged, inlineInfo]).outcome = .done
      ∧ (evaluate selective "s3:GetObject" "arn:aws:s3:::bucket/key" 2 ()
        [failingManaged, inlineInfo]).state = ()) :=
  ⟨(simulation_failure_is_not_fatal selective "s3:GetObject"
      "arn:aws:s3:::bucket/key" 0 () () [deniedInfo] failingInline [inlineInfo]
      "bad" "throttled" rfl rfl rfl).1 "dave" "s" rfl rfl rfl,
    (simulation_failure_is_not_fatal selective "s3:GetObject"
      "arn:aws:s3:::bucket/key" 2 () () [] failingManaged [inlineInfo]
      "bad" "throttled" rfl rfl rfl).2 "arn:b" "v2"
      [⟨[⟨"g1", "G1"⟩], [], [⟨"u1", "U1"⟩], true, some "m1"⟩,
       ⟨[⟨"g2", "G2"⟩], [⟨"r1", "R1"⟩, ⟨"r2", "R2"⟩], [⟨"u2", "U2"⟩], false, none⟩]
      none () rfl rfl (.more rfl rfl (.last rfl rfl)) (by decide)⟩

/-- C7 fails on the code.  With no managed document to send and one inline
document still to be sent by the User Policy Document Fetcher, the managed
fetcher returns and closes `policyDocuments`; then the evaluator's loop ends
having received nothing while the inline document is still pending, and the
user fetcher's send on the closed channel panics. -/
theorem merged_channel_closed_before_user_fetcher_finished :
    (userPolicyDocuments documentService exampleUnescape () [⟨some "alice", some "p"⟩]).emitted
        = [inlineInfo]
    ∧ (policyDocuments documentService exampleUnescape () []).emitted = []
    ∧ (FanIn.start [] [inlineInfo]).run [.managedReturn, .loopEnd]
        = some ⟨[], true, [inlineInfo], false, true, [], true, none⟩
    ∧ (FanIn.start [] [inlineInfo]).run [.managedReturn, .userSend]
        = some ⟨[], true, [inlineInfo], false, true, [], false, some .sendOnClosedChannel⟩ := by
  refine ⟨rfl, rfl, rfl, rfl⟩

end IAMPolicySearch
